import Mathlib

/-!
Verification of the vibe-blog workflow orchestration engine.

Shallow embedding of:
- the shared workflow state (`backend/services/blog_generator/schemas/state.py`),
- the routing functions and loop-body nodes of the LangGraph workflow
  (`backend/services/blog_generator/generator.py`),
- the writer / coder / reviewer / researcher agents
  (`backend/services/blog_generator/agents/*.py`),
- the SSE task manager (`backend/services/task_service.py`).

External collaborators (the LLM client, the search service, prompt rendering)
are modelled as function parameters; an LLM call that raises an exception is
modelled as an `Except`/`Option` failure value.
-/

namespace VibeBlog

/-- `VaguePoint` record from `schemas/state.py` (Questioner output entry). -/
structure VaguePoint where
  location : String
  issue : String
  question : String
  suggestion : String
deriving DecidableEq, Repr

/-- `QuestionResult` record from `schemas/state.py`. -/
structure QuestionResult where
  section_id : String
  is_detailed_enough : Bool
  vague_points : List VaguePoint
  depth_score : Int
deriving DecidableEq, Repr

/-- `ReviewIssue` record from `schemas/state.py`. -/
structure ReviewIssue where
  section_id : String
  issue_type : String
  severity : String
  description : String
  suggestion : String
deriving DecidableEq, Repr

/-- `SectionContent` record from `schemas/state.py`: one written section. -/
structure Section where
  id : String
  title : String
  content : String
  image_ids : List String
  code_ids : List String
deriving DecidableEq, Repr

/-- `SectionOutline` record from `schemas/state.py`. -/
structure SectionOutline where
  id : String
  title : String
  key_concept : String
  content_outline : List String
  image_type : String
  image_description : String
  code_blocks : Nat
  has_output_block : Bool
  key_quote : String
deriving DecidableEq, Repr

/-- `BlogOutline` from `schemas/state.py`, restricted to the fields the
embedded steps read (`title` and `sections`). -/
structure Outline where
  title : String
  subtitle : String
  sections : List SectionOutline
deriving DecidableEq, Repr

/-- A code block produced by the Coder agent (`agents/coder.py`). -/
structure CodeBlockR where
  id : String
  code : String
  output : String
  explanation : String
  language : String
deriving DecidableEq, Repr

/-- An image resource produced by the Artist agent (`agents/artist.py`). -/
structure ImageR where
  id : String
  render_method : String
  content : String
  caption : String
  rendered_path : Option String
deriving DecidableEq, Repr

/-- A raw search result item as accumulated by `ResearcherAgent.search`
(`agents/researcher.py`): a dict read through `.get('url', '')` etc. -/
structure SItem where
  title : String
  url : String
  content : String
deriving DecidableEq, Repr

/-- The `SharedState` TypedDict of `schemas/state.py`. Every key is present
from `create_initial_state` on, so `state.get(k, d)` reads are plain fields. -/
structure SharedState where
  topic : String
  article_type : String
  target_audience : String
  target_length : String
  source_material : Option String
  search_results : List SItem
  background_knowledge : Option String
  key_concepts : List String
  reference_links : List String
  outline : Option Outline
  sections : List Section
  code_blocks : List CodeBlockR
  images : List ImageR
  question_results : List QuestionResult
  all_sections_detailed : Bool
  questioning_count : Nat
  review_score : Int
  review_issues : List ReviewIssue
  review_approved : Bool
  revision_count : Nat
  final_markdown : Option String
  final_html : Option String
  output_folder : Option String
  error : Option String
deriving DecidableEq, Repr

/-- `create_initial_state` from `schemas/state.py`. -/
def create_initial_state (topic : String) (article_type : String)
    (target_audience : String) (target_length : String)
    (source_material : Option String) : SharedState where
  topic := topic
  article_type := article_type
  target_audience := target_audience
  target_length := target_length
  source_material := source_material
  search_results := []
  background_knowledge := none
  key_concepts := []
  reference_links := []
  outline := none
  sections := []
  code_blocks := []
  images := []
  question_results := []
  all_sections_detailed := false
  questioning_count := 0
  review_score := 0
  review_issues := []
  review_approved := false
  revision_count := 0
  final_markdown := none
  final_html := none
  output_folder := none
  error := none

/-- Python truthiness of the `error` field: `if state.get('error'):` is true
iff the field holds a non-empty string. -/
def errTruthy : Option String → Bool
  | none => false
  | some m => !(m = "")

/-- `BlogGenerator._should_deepen` (`generator.py` lines 229-234). -/
def should_deepen (max_questioning_rounds : Nat) (state : SharedState) : String :=
  if !state.all_sections_detailed then
    if state.questioning_count < max_questioning_rounds then "deepen"
    else "continue"
  else "continue"

/-- `BlogGenerator._should_revise` (`generator.py` lines 236-241). -/
def should_revise (max_revision_rounds : Nat) (state : SharedState) : String :=
  if !state.review_approved then
    if state.revision_count < max_revision_rounds then "revision"
    else "assemble"
  else "assemble"

/-- The content-enhancement collaborator `self.writer.enhance_section` as seen
by the loop-body nodes of `generator.py`: arguments are the original content,
the vague points, the section title and the progress string; `Except.error`
models the call raising an exception. -/
def EnhanceFn : Type :=
  String → List VaguePoint → String → String → Except Unit String

/-- Inner loop of `_deepen_content_node` (`generator.py` lines 160-176): find
the first section whose id matches the question result, replace its content
with the enhanced content, and stop (`break`). An exception from the
enhancement call leaves every section unchanged. -/
def deepenUpdateSections (enhance : EnhanceFn) (r : QuestionResult)
    (progress : String) : List Section → Except Unit (List Section)
  | [] => Except.ok []
  | sec :: rest =>
    if sec.id = r.section_id then
      match enhance sec.content r.vague_points sec.title progress with
      | Except.ok newContent => Except.ok ({ sec with content := newContent } :: rest)
      | Except.error e => Except.error e
    else
      match deepenUpdateSections enhance r progress rest with
      | Except.ok rest2 => Except.ok (sec :: rest2)
      | Except.error e => Except.error e

/-- Outer loop of `_deepen_content_node` over the sections flagged
not-detailed-enough. The Python state dict is mutated in place, so when an
enhancement call raises, the exception (`Except.error`) carries the state as
mutated so far — in particular the already-incremented counter. -/
def deepenLoop (enhance : EnhanceFn) (total : Nat) :
    Nat → List QuestionResult → SharedState → Except SharedState SharedState
  | _, [], s => Except.ok s
  | idx, r :: rest, s =>
    match deepenUpdateSections enhance r
        ("[" ++ toString idx ++ "/" ++ toString total ++ "]") s.sections with
    | Except.ok newSections =>
      deepenLoop enhance total (idx + 1) rest { s with sections := newSections }
    | Except.error _ => Except.error s

/-- `BlogGenerator._deepen_content_node` (`generator.py` lines 142-178):
increments `questioning_count` first, then enhances each section flagged
not-detailed-enough. -/
def deepen_content_node (enhance : EnhanceFn) (s : SharedState) :
    Except SharedState SharedState :=
  let s1 := { s with questioning_count := s.questioning_count + 1 }
  let toDeepen := s1.question_results.filter (fun r => !r.is_detailed_enough)
  deepenLoop enhance toDeepen.length 1 toDeepen s1

/-- Inner loop of `_revision_node` (`generator.py` lines 206-220): find the
first section whose id matches the review issue and enhance it with the single
vague point built from the issue. -/
def revisionUpdateSections (enhance : EnhanceFn) (issue : ReviewIssue) :
    List Section → Except Unit (List Section)
  | [] => Except.ok []
  | sec :: rest =>
    if sec.id = issue.section_id then
      match enhance sec.content
          [{ location := sec.title, issue := issue.description,
             question := issue.suggestion, suggestion := "根据审核建议修改" }] "" "" with
      | Except.ok newContent => Except.ok ({ sec with content := newContent } :: rest)
      | Except.error e => Except.error e
    else
      match revisionUpdateSections enhance issue rest with
      | Except.ok rest2 => Except.ok (sec :: rest2)
      | Except.error e => Except.error e

/-- Outer loop of `_revision_node` over the review issues. -/
def revisionLoop (enhance : EnhanceFn) :
    List ReviewIssue → SharedState → Except SharedState SharedState
  | [], s => Except.ok s
  | issue :: rest, s =>
    match revisionUpdateSections enhance issue s.sections with
    | Except.ok newSections =>
      revisionLoop enhance rest { s with sections := newSections }
    | Except.error _ => Except.error s

/-- `BlogGenerator._revision_node` (`generator.py` lines 195-222): increments
`revision_count` first, then revises each section named by a review issue. -/
def revision_node (enhance : EnhanceFn) (s : SharedState) :
    Except SharedState SharedState :=
  let s1 := { s with revision_count := s.revision_count + 1 }
  revisionLoop enhance s1.review_issues s1

/-- The state carried by either branch of an `Except`-valued node result:
since the Python node mutates the state dict in place, the state reflecting
the node's partial work exists whether or not an exception was raised. -/
def stateOfE (e : Except SharedState SharedState) : SharedState :=
  match e with
  | Except.ok t => t
  | Except.error t => t

/-- The nodes of the workflow graph built by `_build_workflow`
(`generator.py` lines 66-120); `terminal` is LangGraph's END. -/
inductive Node where
  | researcher
  | planner
  | writer
  | questioner
  | deepen_content
  | coder
  | artist
  | reviewer
  | revision
  | assembler
  | terminal
deriving DecidableEq, Repr

/-- The content agents attached to the non-loop-body nodes, as an oracle from
node to state transformer. The researcher, writer, coder, artist and reviewer
agents are embedded separately below; planner, questioner and assembler are
absent from the source tree, so at graph level every content agent is an
arbitrary state transformer constrained by `CounterPreserving`. -/
def AgentFn : Type := Node → SharedState → SharedState

/-- Modelled from the spec: the planner, questioner and assembler agent
sources are missing from the tree, so their one property the loop claims rely
on is taken from the spec ("Loop counters: ... monotonically incremented only
by their respective loop-body steps"): a content agent never writes the two
loop counters. The agents present in the source (researcher, writer, coder,
artist, reviewer) visibly never touch these fields either. -/
def CounterPreserving (oracle : AgentFn) : Prop :=
  ∀ n s, (oracle n s).questioning_count = s.questioning_count ∧
    (oracle n s).revision_count = s.revision_count

/-- One step of the compiled workflow: execute the node's function on the
state, then follow the fixed edge, or the conditional edge chosen by the
router evaluated on the node's output state (`_build_workflow`, lines
87-118). `none` models an exception escaping a node (engine-fatal). -/
def stepW (oracle : AgentFn) (enhance : EnhanceFn) (maxQ maxR : Nat) :
    Node → SharedState → Option (Node × SharedState)
  | Node.researcher, s => some (Node.planner, oracle Node.researcher s)
  | Node.planner, s => some (Node.writer, oracle Node.planner s)
  | Node.writer, s => some (Node.questioner, oracle Node.writer s)
  | Node.questioner, s =>
    let t := oracle Node.questioner s
    some (if should_deepen maxQ t = "deepen" then Node.deepen_content else Node.coder, t)
  | Node.deepen_content, s =>
    match deepen_content_node enhance s with
    | Except.ok t => some (Node.questioner, t)
    | Except.error _ => none
  | Node.coder, s => some (Node.artist, oracle Node.coder s)
  | Node.artist, s => some (Node.reviewer, oracle Node.artist s)
  | Node.reviewer, s =>
    let t := oracle Node.reviewer s
    some (if should_revise maxR t = "revision" then Node.revision else Node.assembler, t)
  | Node.revision, s =>
    match revision_node enhance s with
    | Except.ok t => some (Node.reviewer, t)
    | Except.error _ => none
  | Node.assembler, s => some (Node.terminal, oracle Node.assembler s)
  | Node.terminal, s => some (Node.terminal, s)

/-- Drive the workflow for at most `fuel` node executions. Returns the final
state and the number of node executions on reaching the terminal node; `none`
on fuel exhaustion or on an exception escaping a node. -/
def runW (oracle : AgentFn) (enhance : EnhanceFn) (maxQ maxR : Nat) :
    Nat → Node → SharedState → Option (SharedState × Nat)
  | _, Node.terminal, s => some (s, 0)
  | 0, _, _ => none
  | fuel + 1, node, s =>
    match stepW oracle enhance maxQ maxR node s with
    | none => none
    | some (node2, s2) =>
      match runW oracle enhance maxQ maxR fuel node2 s2 with
      | some (t, k) => some (t, k + 1)
      | none => none

/-- The LLM client's `chat` method, made explicit: maps the prompt to the
response, with `Except.error msg` modelling a raised exception whose string
representation is `msg`. -/
def Chat : Type := String → Except String String

/-- `WriterAgent.enhance_section` (`agents/writer.py` lines 72-112). `render`
is `pm.render_writer_enhance`. The second component of the result is the list
of prompts actually sent to the LLM (the observable collaborator calls):
with an empty vague-point list the original content is returned before any
prompt is built, and an LLM exception is caught and the original returned. -/
def enhance_section (chat : Chat) (render : String → List VaguePoint → String)
    (original_content : String) (vague_points : List VaguePoint)
    (section_title : String) (progress_info : String) : String × List String :=
  if vague_points.isEmpty then (original_content, [])
  else
    let prompt := render original_content vague_points
    match chat prompt with
    | Except.ok response => (response, [prompt])
    | Except.error _ => (original_content, [prompt])

/-- `WriterAgent.write_section` (`agents/writer.py` lines 28-70): renders the
prompt, calls the LLM and wraps the response in a section record; a raised
LLM exception is re-raised. -/
def write_section (chat : Chat)
    (render : SectionOutline → String → String → String → String)
    (section_outline : SectionOutline) (previous_section_summary : String)
    (next_section_preview : String) (background_knowledge : String) :
    Except String Section :=
  match chat (render section_outline previous_section_summary
      next_section_preview background_knowledge) with
  | Except.ok response =>
    Except.ok { id := section_outline.id, title := section_outline.title,
                content := response, image_ids := [], code_ids := [] }
  | Except.error e => Except.error e

/-- The `prev_summary` context string built in `WriterAgent.run`. -/
def writerPrevSummary (all : List SectionOutline) (i : Nat) : String :=
  if i > 0 then
    match all.get? (i - 1) with
    | some p => "上一章节《" ++ p.title ++ "》讨论了 " ++ p.key_concept
    | none => ""
  else ""

/-- The `next_preview` context string built in `WriterAgent.run`. -/
def writerNextPreview (all : List SectionOutline) (i : Nat) : String :=
  if i < all.length - 1 then
    match all.get? (i + 1) with
    | some n => "下一章节《" ++ n.title ++ "》将介绍 " ++ n.key_concept
    | none => ""
  else ""

/-- The section-writing loop of `WriterAgent.run` (lines 140-167): writes the
sections in order; the first exception records an error message and breaks,
keeping the sections written so far. -/
def writerCollect (chat : Chat)
    (render : SectionOutline → String → String → String → String)
    (all : List SectionOutline) (bg : String) :
    List SectionOutline → Nat → List Section × Option String
  | [], _ => ([], none)
  | so :: rest, i =>
    match write_section chat render so (writerPrevSummary all i)
        (writerNextPreview all i) bg with
    | Except.ok sec =>
      let tail := writerCollect chat render all bg rest (i + 1)
      (sec :: tail.1, tail.2)
    | Except.error e => ([], some ("章节撰写失败: " ++ e))

/-- `WriterAgent.run` (`agents/writer.py` lines 114-172): skips on an already
set (truthy) error flag, records an error when the outline is missing, and
otherwise writes the sections. -/
def writer_run (chat : Chat)
    (render : SectionOutline → String → String → String → String)
    (s : SharedState) : SharedState :=
  if errTruthy s.error then s
  else
    match s.outline with
    | none => { s with error := some "大纲为空，无法进行内容撰写" }
    | some outline =>
      let bg := s.background_knowledge.getD ""
      let result := writerCollect chat render outline.sections bg outline.sections 0
      { s with sections := result.1,
               error := match result.2 with
                        | some e => some e
                        | none => s.error }

/-- A code placeholder extracted by `CoderAgent.extract_code_placeholders`
(`agents/coder.py` lines 74-95). The regex extraction itself is treated as a
pure collaborator parameter of the embedded `run`. -/
structure CodePh where
  id : String
  description : String
deriving DecidableEq, Repr

/-- The record returned by `CoderAgent.generate_code` (lines 29-72), whose
LLM/JSON internals are abstracted as a collaborator. -/
structure GenCode where
  code : String
  output : String
  explanation : String
  language : String
deriving DecidableEq, Repr

/-- Per-section body of `CoderAgent.run` (lines 114-148): generate code for
each placeholder of the section, appending ids to the section's `code_ids`;
an exception from one generation call skips that placeholder only. -/
def coderSection (extract : String → List CodePh)
    (gen : String → String → Except Unit GenCode) (sec : Section) :
    Section × List CodeBlockR :=
  (extract sec.content).foldl
    (fun acc ph =>
      match gen ph.description ("章节: " ++ sec.title) with
      | Except.ok c =>
        ({ acc.1 with code_ids := acc.1.code_ids ++ [ph.id] },
         acc.2 ++ [{ id := ph.id, code := c.code, output := c.output,
                     explanation := c.explanation, language := c.language }])
      | Except.error _ => acc)
    (sec, [])

/-- `CoderAgent.run` (`agents/coder.py` lines 97-153): no error-flag check;
walks all sections and stores the generated blocks in `code_blocks`. -/
def coder_run (extract : String → List CodePh)
    (gen : String → String → Except Unit GenCode) (s : SharedState) :
    SharedState :=
  let acc := s.sections.foldl
    (fun acc sec =>
      let r := coderSection extract gen sec
      (acc.1 ++ [r.1], acc.2 ++ r.2))
    (([] : List Section), ([] : List CodeBlockR))
  { s with sections := acc.1, code_blocks := acc.2 }

/-- The fields `json.loads` may or may not provide in the reviewer's LLM
response; `none` on a missing key selects the `.get` default. -/
structure ReviewJson where
  score : Option Int
  approved : Option Bool
  issues : Option (List ReviewIssue)
  summary : Option String
deriving DecidableEq, Repr

/-- The result dict of `ReviewerAgent.review`. -/
structure ReviewResult where
  score : Int
  approved : Bool
  issues : List ReviewIssue
  summary : String
deriving DecidableEq, Repr

/-- The fallback result of `ReviewerAgent.review` when the LLM call raises or
its response fails to parse as a JSON object (lines 63-71). -/
def reviewFallback : ReviewResult :=
  { score := 80, approved := true, issues := [], summary := "审核完成" }

/-- `ReviewerAgent.review` (`agents/reviewer.py` lines 28-71). `chat` is the
LLM call, `parse` models `json.loads` plus dict access (`none` when the
response is not a JSON object). Any failure inside the `try` yields the
approving fallback. -/
def reviewer_review (chat : Chat) (parse : String → Option ReviewJson)
    (render : String → Option Outline → String) (document : String)
    (outline : Option Outline) : ReviewResult :=
  match chat (render document outline) with
  | Except.error _ => reviewFallback
  | Except.ok response =>
    match parse response with
    | none => reviewFallback
    | some j =>
      { score := j.score.getD 80, approved := j.approved.getD true,
        issues := j.issues.getD [], summary := j.summary.getD "" }

/-- The document assembled for review in `ReviewerAgent.run` (lines 86-91). -/
def reviewer_document (sections : List Section) : String :=
  String.intercalate "\n\n---\n\n"
    (sections.map (fun sec => "## " ++ sec.title ++ "\n\n" ++ sec.content))

/-- `ReviewerAgent.run` (`agents/reviewer.py` lines 73-107): assembles the
document, reviews it, and overwrites the three review fields. Note: no
error-flag check. -/
def reviewer_run (chat : Chat) (parse : String → Option ReviewJson)
    (render : String → Option Outline → String) (s : SharedState) :
    SharedState :=
  let result := reviewer_review chat parse render
    (reviewer_document s.sections) s.outline
  { s with review_score := result.score,
           review_approved := result.approved,
           review_issues := result.issues }

/-- Deduplication loop of `ResearcherAgent.search` (`agents/researcher.py`
lines 103-109): keep an item iff its url is non-empty and unseen, recording
the url as seen exactly when the item is kept. -/
def dedupLoop : List String → List SItem → List SItem
  | _, [] => []
  | seen, item :: rest =>
    if item.url ≠ "" ∧ item.url ∉ seen then
      item :: dedupLoop (item.url :: seen) rest
    else
      dedupLoop seen rest

/-- The tail of `ResearcherAgent.search` (lines 102-111) applied to the raw
results accumulated across the queries: deduplicate by url, then truncate to
`max_results`. -/
def researcher_search_dedup (all_results : List SItem) (max_results : Nat) :
    List SItem :=
  (dedupLoop [] all_results).take max_results

/-- Lookup in an insertion-ordered association list (Python dict `.get`). -/
def lookupA {α : Type} : List (String × α) → String → Option α
  | [], _ => none
  | (k, v) :: rest, key => if k = key then some v else lookupA rest key

/-- Replace the value of an existing key (Python dict assignment to a present
key); leaves the list unchanged when the key is absent. -/
def updateA {α : Type} : List (String × α) → String → α → List (String × α)
  | [], _, _ => []
  | (k, v) :: rest, key, newV =>
    if k = key then (k, newV) :: rest else (k, v) :: updateA rest key newV

/-- Python dict assignment: overwrite a present key in place, append a new
key at the end (dicts preserve insertion order). -/
def insertA {α : Type} (l : List (String × α)) (key : String) (v : α) :
    List (String × α) :=
  if (lookupA l key).isSome then updateA l key v else l ++ [(key, v)]

/-- One recorded per-stage result in `TaskProgress.results`
(`task_service.py`): `send_result` marks it completed and stores the data. -/
structure StageResult where
  completed : Bool
  data : String
deriving DecidableEq, Repr

/-- The `TaskProgress` dataclass of `task_service.py` (timestamps omitted:
they carry no information the claims mention). -/
structure TaskProgress where
  task_id : String
  status : String
  current_stage : String
  stage_progress : Nat
  overall_progress : Nat
  message : String
  results : List (String × StageResult)
  outputs : String
  error : Option String
deriving DecidableEq, Repr

/-- An SSE event as enqueued by `TaskManager.send_event`: the envelope
`{'event': name, 'data': {...}}` with the payload fields each sender sets. -/
inductive EventData where
  | progress (stage : String) (progress : Nat) (message : String)
      (overall_progress : Nat)
  | stream (stage delta accumulated : String)
  | result (stage type_ data : String)
  | complete (task_id status outputs : String)
  | error (stage message : String) (recoverable : Bool)
  | cancelled (task_id : String)
deriving DecidableEq, Repr

/-- The shared maps of the `TaskManager` singleton: `self.tasks` and
`self.queues` (per-task FIFO event queues, modelled as lists). -/
structure TMState where
  tasks : List (String × TaskProgress)
  queues : List (String × List EventData)
deriving DecidableEq, Repr

/-- `TaskManager.create_task` (`task_service.py` lines 57-67), with the
freshly generated uuid-based id passed in explicitly. -/
def create_task (tm : TMState) (task_id : String) : TMState :=
  { tm with
    tasks := insertA tm.tasks task_id
      { task_id := task_id, status := "pending", current_stage := "",
        stage_progress := 0, overall_progress := 0, message := "",
        results := [], outputs := "", error := none },
    queues := insertA tm.queues task_id [] }

/-- `TaskManager.send_event` (lines 77-84): append to the task's queue when
it exists, otherwise only log a warning. -/
def send_event (tm : TMState) (task_id : String) (ev : EventData) : TMState :=
  match lookupA tm.queues task_id with
  | some q => { tm with queues := updateA tm.queues task_id (q ++ [ev]) }
  | none => tm

/-- The fixed `stage_weights` table of `TaskManager.send_progress`
(lines 96-102). -/
def stage_weights : List (String × Nat) :=
  [("analyze", 10), ("metaphor", 15), ("outline", 20), ("content", 30),
   ("image", 25)]

/-- Whether `task.results` marks `stage` completed (`s in task.results and
task.results[s].get('completed')`). -/
def stageCompleted (results : List (String × StageResult)) (stage : String) :
    Bool :=
  match lookupA results stage with
  | some r => r.completed
  | none => false

/-- The completed-stage weight sum in `send_progress` (lines 103-106). -/
def completedWeight (results : List (String × StageResult)) : Nat :=
  ((stage_weights.filter (fun p => stageCompleted results p.1)).map
    (fun p => p.2)).foldl (fun a b => a + b) 0

/-- `TaskManager.send_progress` (`task_service.py` lines 86-116). `progress`
is a percent in 0-100 per the event interface, so Python's
`int(completed + weight*progress/100)` is the integer division below. -/
def send_progress (tm : TMState) (task_id stage : String) (progress : Nat)
    (message : String) : TMState :=
  match lookupA tm.tasks task_id with
  | some task =>
    let overall := completedWeight task.results +
      (lookupA stage_weights stage).getD 0 * progress / 100
    let task2 := { task with current_stage := stage,
                             stage_progress := progress,
                             message := message,
                             overall_progress := overall }
    let tm2 := { tm with tasks := updateA tm.tasks task_id task2 }
    send_event tm2 task_id (EventData.progress stage progress message overall)
  | none =>
    send_event tm task_id (EventData.progress stage progress message 0)

/-- `TaskManager.send_result` (lines 126-140): mark the stage completed with
its data, then enqueue a result event. -/
def send_result (tm : TMState) (task_id stage result_type data : String) :
    TMState :=
  let tm2 :=
    match lookupA tm.tasks task_id with
    | some task =>
      let task2 := { task with
        results := insertA task.results stage { completed := true, data := data } }
      { tm with tasks := updateA tm.tasks task_id task2 }
    | none => tm
  send_event tm2 task_id (EventData.result stage result_type data)

/-- `TaskManager.send_error` (lines 157-171): set status to failed only when
non-recoverable, always record the message, then enqueue one error event. -/
def send_error (tm : TMState) (task_id stage message : String)
    (recoverable : Bool) : TMState :=
  let tm2 :=
    match lookupA tm.tasks task_id with
    | some task =>
      let task2 := { task with
        status := if recoverable then task.status else "failed",
        error := some message }
      { tm with tasks := updateA tm.tasks task_id task2 }
    | none => tm
  send_event tm2 task_id (EventData.error stage message recoverable)

/-- `TaskManager.set_running` (lines 173-178). -/
def set_running (tm : TMState) (task_id : String) : TMState :=
  match lookupA tm.tasks task_id with
  | some task =>
    { tm with tasks := updateA tm.tasks task_id { task with status := "running" } }
  | none => tm

/-! ## Helper lemmas -/

theorem lookupA_updateA_self {α : Type} (l : List (String × α)) (k : String)
    (v : α) (h : (lookupA l k).isSome) : lookupA (updateA l k v) k = some v := by
  induction l with
  | nil => simp [lookupA] at h
  | cons hd tl ih =>
    by_cases hk : hd.1 = k
    · simp [lookupA, updateA, hk]
    · simp [lookupA, updateA, hk] at h ⊢
      exact ih h

theorem send_event_tasks (tm : TMState) (task_id : String) (ev : EventData) :
    (send_event tm task_id ev).tasks = tm.tasks := by
  unfold send_event
  cases lookupA tm.queues task_id <;> rfl

theorem send_event_queue (tm : TMState) (task_id : String) (ev : EventData)
    (q : List EventData) (hq : lookupA tm.queues task_id = some q) :
    lookupA (send_event tm task_id ev).queues task_id = some (q ++ [ev]) := by
  unfold send_event
  rw [hq]
  exact lookupA_updateA_self _ _ _ (by rw [hq]; rfl)

theorem dedupLoop_sublist (l : List SItem) :
    ∀ seen, (dedupLoop seen l).Sublist l := by
  induction l with
  | nil => intro seen; simp [dedupLoop]
  | cons x xs ih =>
    intro seen
    by_cases h : x.url ≠ "" ∧ x.url ∉ seen
    · simpa [dedupLoop, h] using List.Sublist.cons₂ x (ih (x.url :: seen))
    · simpa [dedupLoop, h] using List.Sublist.cons x (ih seen)

theorem dedupLoop_mem (l : List SItem) :
    ∀ seen x, x ∈ dedupLoop seen l → x.url ≠ "" ∧ x.url ∉ seen := by
  induction l with
  | nil => intro seen x hx; simp [dedupLoop] at hx
  | cons y ys ih =>
    intro seen x hx
    by_cases h : y.url ≠ "" ∧ y.url ∉ seen
    · simp only [dedupLoop, if_pos h] at hx
      rw [List.mem_cons] at hx
      rcases hx with hx | hx
      · subst hx; exact h
      · have := ih _ _ hx
        refine ⟨this.1, fun hmem => this.2 (List.mem_cons_of_mem _ hmem)⟩
    · simp only [dedupLoop, if_neg h] at hx
      exact ih _ _ hx

theorem dedupLoop_pairwise (l : List SItem) :
    ∀ seen, (dedupLoop seen l).Pairwise (fun a b => a.url ≠ b.url) := by
  induction l with
  | nil => intro seen; simp [dedupLoop]
  | cons y ys ih =>
    intro seen
    by_cases h : y.url ≠ "" ∧ y.url ∉ seen
    · simp only [dedupLoop, if_pos h]
      refine List.Pairwise.cons ?_ (ih (y.url :: seen))
      intro b hb hurl
      exact (dedupLoop_mem ys _ _ hb).2 (by rw [← hurl]; exact List.mem_cons_self _ _)
    · simp only [dedupLoop, if_neg h]
      exact ih seen

theorem dedupLoop_first_occurrence (l : List SItem) :
    ∀ seen x, x ∈ dedupLoop seen l →
      l.find? (fun y => y.url == x.url) = some x := by
  induction l with
  | nil => intro seen x hx; simp [dedupLoop] at hx
  | cons y ys ih =>
    intro seen x hx
    by_cases h : y.url ≠ "" ∧ y.url ∉ seen
    · simp only [dedupLoop, if_pos h] at hx
      rw [List.mem_cons] at hx
      rcases hx with hx | hx
      · subst hx
        rw [List.find?_cons_of_pos _ (by simp)]
      · have hmem := dedupLoop_mem ys _ _ hx
        have hne : y.url ≠ x.url := by
          intro heq
          exact hmem.2 (by rw [← heq]; exact List.mem_cons_self _ _)
        have hstep : List.find? (fun z : SItem => z.url == x.url) (y :: ys) =
            List.find? (fun z : SItem => z.url == x.url) ys := by
          simp [List.find?_cons, hne]
        rw [hstep]
        exact ih _ _ hx
    · simp only [dedupLoop, if_neg h] at hx
      have hmem := dedupLoop_mem ys _ _ hx
      push_neg at h
      have hne : y.url ≠ x.url := by
        intro heq
        by_cases hy : y.url = ""
        · exact hmem.1 (by rw [← heq, hy])
        · exact hmem.2 (by rw [← heq]; exact h hy)
      have hstep : List.find? (fun z : SItem => z.url == x.url) (y :: ys) =
          List.find? (fun z : SItem => z.url == x.url) ys := by
        simp [List.find?_cons, hne]
      rw [hstep]
      exact ih _ _ hx

theorem deepenLoop_counters (enhance : EnhanceFn) (total : Nat)
    (l : List QuestionResult) :
    ∀ idx s, (stateOfE (deepenLoop enhance total idx l s)).questioning_count =
        s.questioning_count ∧
      (stateOfE (deepenLoop enhance total idx l s)).revision_count =
        s.revision_count := by
  induction l with
  | nil => intro idx s; simp [deepenLoop, stateOfE]
  | cons r rest ih =>
    intro idx s
    simp only [deepenLoop]
    cases deepenUpdateSections enhance r
        ("[" ++ toString idx ++ "/" ++ toString total ++ "]") s.sections with
    | ok newSections => simpa using ih (idx + 1) { s with sections := newSections }
    | error e => simp [stateOfE]

theorem revisionLoop_counters (enhance : EnhanceFn) (l : List ReviewIssue) :
    ∀ s, (stateOfE (revisionLoop enhance l s)).questioning_count =
        s.questioning_count ∧
      (stateOfE (revisionLoop enhance l s)).revision_count =
        s.revision_count := by
  induction l with
  | nil => intro s; simp [revisionLoop, stateOfE]
  | cons issue rest ih =>
    intro s
    simp only [revisionLoop]
    cases revisionUpdateSections enhance issue s.sections with
    | ok newSections => simpa using ih { s with sections := newSections }
    | error e => simp [stateOfE]

theorem deepen_node_counters (enhance : EnhanceFn) (s : SharedState) :
    (stateOfE (deepen_content_node enhance s)).questioning_count =
      s.questioning_count + 1 ∧
    (stateOfE (deepen_content_node enhance s)).revision_count =
      s.revision_count := by
  unfold deepen_content_node
  exact deepenLoop_counters enhance _ _ 1 _

theorem revision_node_counters (enhance : EnhanceFn) (s : SharedState) :
    (stateOfE (revision_node enhance s)).questioning_count =
      s.questioning_count ∧
    (stateOfE (revision_node enhance s)).revision_count =
      s.revision_count + 1 := by
  unfold revision_node
  exact revisionLoop_counters enhance _ _

/-- The enhancement collaborator never raises (this is how the actual
`WriterAgent.enhance_section` behaves: it catches the LLM exception and
returns the original content). -/
def TotalEnhance (enhance : EnhanceFn) : Prop :=
  ∀ c vp t p, ∃ r, enhance c vp t p = Except.ok r

theorem deepenUpdateSections_ok (enhance : EnhanceFn)
    (hT : TotalEnhance enhance) (r : QuestionResult) (p : String)
    (l : List Section) :
    ∃ ns, deepenUpdateSections enhance r p l = Except.ok ns := by
  induction l with
  | nil => exact ⟨[], rfl⟩
  | cons sec rest ih =>
    by_cases hid : sec.id = r.section_id
    · obtain ⟨v, hv⟩ := hT sec.content r.vague_points sec.title p
      exact ⟨{ sec with content := v } :: rest,
        by simp [deepenUpdateSections, hid, hv]⟩
    · obtain ⟨ns, hns⟩ := ih
      exact ⟨sec :: ns, by simp [deepenUpdateSections, hid, hns]⟩

theorem deepenLoop_ok (enhance : EnhanceFn) (hT : TotalEnhance enhance)
    (total : Nat) (l : List QuestionResult) :
    ∀ idx s, ∃ t, deepenLoop enhance total idx l s = Except.ok t := by
  induction l with
  | nil => intro idx s; exact ⟨s, rfl⟩
  | cons r rest ih =>
    intro idx s
    obtain ⟨ns, hns⟩ := deepenUpdateSections_ok enhance hT r
      ("[" ++ toString idx ++ "/" ++ toString total ++ "]") s.sections
    obtain ⟨t, ht⟩ := ih (idx + 1) { s with sections := ns }
    exact ⟨t, by simp [deepenLoop, hns, ht]⟩

theorem revisionUpdateSections_ok (enhance : EnhanceFn)
    (hT : TotalEnhance enhance) (issue : ReviewIssue) (l : List Section) :
    ∃ ns, revisionUpdateSections enhance issue l = Except.ok ns := by
  induction l with
  | nil => exact ⟨[], rfl⟩
  | cons sec rest ih =>
    by_cases hid : sec.id = issue.section_id
    · obtain ⟨v, hv⟩ := hT sec.content
        [{ location := sec.title, issue := issue.description,
           question := issue.suggestion, suggestion := "根据审核建议修改" }] "" ""
      exact ⟨{ sec with content := v } :: rest,
        by simp [revisionUpdateSections, hid, hv]⟩
    · obtain ⟨ns, hns⟩ := ih
      exact ⟨sec :: ns, by simp [revisionUpdateSections, hid, hns]⟩

theorem revisionLoop_ok (enhance : EnhanceFn) (hT : TotalEnhance enhance)
    (l : List ReviewIssue) :
    ∀ s, ∃ t, revisionLoop enhance l s = Except.ok t := by
  induction l with
  | nil => intro s; exact ⟨s, rfl⟩
  | cons issue rest ih =>
    intro s
    obtain ⟨ns, hns⟩ := revisionUpdateSections_ok enhance hT issue s.sections
    obtain ⟨t, ht⟩ := ih { s with sections := ns }
    exact ⟨t, by simp [revisionLoop, hns, ht]⟩

theorem deepen_node_ok (enhance : EnhanceFn) (hT : TotalEnhance enhance)
    (s : SharedState) :
    ∃ t, deepen_content_node enhance s = Except.ok t ∧
      t.questioning_count = s.questioning_count + 1 ∧
      t.revision_count = s.revision_count := by
  obtain ⟨t, ht⟩ := deepenLoop_ok enhance hT _ _ 1
    { s with questioning_count := s.questioning_count + 1 }
  refine ⟨t, ht, ?_⟩
  have h := deepen_node_counters enhance s
  unfold deepen_content_node at h
  rw [ht] at h
  simpa [stateOfE] using h

theorem revision_node_ok (enhance : EnhanceFn) (hT : TotalEnhance enhance)
    (s : SharedState) :
    ∃ t, revision_node enhance s = Except.ok t ∧
      t.questioning_count = s.questioning_count ∧
      t.revision_count = s.revision_count + 1 := by
  obtain ⟨t, ht⟩ := revisionLoop_ok enhance hT _
    { s with revision_count := s.revision_count + 1 }
  refine ⟨t, ht, ?_⟩
  have h := revision_node_counters enhance s
  unfold revision_node at h
  rw [ht] at h
  simpa [stateOfE] using h

/-! ## Claim theorems -/

/-- C2: the two routing functions are pure functions of the state and the
loop caps: `_should_deepen` returns "deepen" iff `all_sections_detailed` is
false and `questioning_count < max_questioning_rounds`, and "continue"
otherwise; `_should_revise` returns "revision" iff `review_approved` is false
and `revision_count < max_revision_rounds`, and "assemble" otherwise; a
reached cap forces the forward branch even when the content condition is
unsatisfied. -/
theorem router_decisions (maxQ maxR : Nat) (s : SharedState) :
    (should_deepen maxQ s = "deepen" ↔
      (s.all_sections_detailed = false ∧ s.questioning_count < maxQ)) ∧
    (should_deepen maxQ s = "continue" ↔
      ¬(s.all_sections_detailed = false ∧ s.questioning_count < maxQ)) ∧
    (should_revise maxR s = "revision" ↔
      (s.review_approved = false ∧ s.revision_count < maxR)) ∧
    (should_revise maxR s = "assemble" ↔
      ¬(s.review_approved = false ∧ s.revision_count < maxR)) := by
  cases hA : s.all_sections_detailed <;> cases hR : s.review_approved <;>
    by_cases hq : s.questioning_count < maxQ <;>
    by_cases hr : s.revision_count < maxR <;>
    simp [should_deepen, should_revise, hA, hR, hq, hr]

/-- C2 witness: on the initial state (not detailed, not approved, counters 0)
with positive caps the routers select both loop bodies; with caps 0 they
select the forward branches. -/
theorem router_decisions_witness :
    should_deepen 2 (create_initial_state "t" "tutorial" "intermediate"
      "medium" none) = "deepen" ∧
    should_revise 0 (create_initial_state "t" "tutorial" "intermediate"
      "medium" none) = "assemble" := by
  constructor
  · exact (router_decisions 2 3 (create_initial_state "t" "tutorial"
      "intermediate" "medium" none)).1.mpr ⟨rfl, by decide⟩
  · exact (router_decisions 2 0 (create_initial_state "t" "tutorial"
      "intermediate" "medium" none)).2.2.2.mpr (by decide)

/-- C5: each loop-body node increments its own counter exactly once per
execution, before the per-section enhancement work: whatever the enhancement
collaborator does — including raising an exception, the `Except.error` branch
whose carried state `stateOfE` also reports — the state shows
`questioning_count + 1` after `_deepen_content_node` and `revision_count + 1`
after `_revision_node`. -/
theorem loop_body_increments_once (enhance : EnhanceFn) (s : SharedState) :
    (stateOfE (deepen_content_node enhance s)).questioning_count =
      s.questioning_count + 1 ∧
    (stateOfE (revision_node enhance s)).revision_count =
      s.revision_count + 1 := by
  exact ⟨(deepen_node_counters enhance s).1, (revision_node_counters enhance s).2⟩

/-- C6: `enhance_section` with an empty vague-point list returns the original
content unchanged, for every LLM client, prompt renderer and optional
argument values, and sends no prompt to the LLM (the prompt log is empty). -/
theorem enhance_section_empty_identity (chat : Chat)
    (render : String → List VaguePoint → String) (original_content : String)
    (section_title : String) (progress_info : String) :
    enhance_section chat render original_content [] section_title
      progress_info = (original_content, []) := by
  simp [enhance_section]

/-- C9: the deduplication performed by `ResearcherAgent.search` on the raw
results accumulated across queries yields a list with pairwise-distinct urls,
no empty urls, each survivor being the first occurrence of its url, the order
of the input preserved (a sublist), and at most `max_results` entries. -/
theorem search_dedup_spec (all_results : List SItem) (max_results : Nat) :
    (researcher_search_dedup all_results max_results).Pairwise
      (fun a b => a.url ≠ b.url) ∧
    (∀ x ∈ researcher_search_dedup all_results max_results, x.url ≠ "") ∧
    (∀ x ∈ researcher_search_dedup all_results max_results,
      all_results.find? (fun y => y.url == x.url) = some x) ∧
    (researcher_search_dedup all_results max_results).Sublist all_results ∧
    (researcher_search_dedup all_results max_results).length ≤ max_results := by
  refine ⟨?_, ?_, ?_, ?_, ?_⟩
  · exact (dedupLoop_pairwise all_results []).sublist
      (List.take_sublist max_results _)
  · intro x hx
    exact (dedupLoop_mem all_results [] x
      ((List.take_sublist max_results _).mem hx)).1
  · intro x hx
    exact dedupLoop_first_occurrence all_results [] x
      ((List.take_sublist max_results _).mem hx)
  · exact (List.take_sublist max_results _).trans (dedupLoop_sublist all_results [])
  · simpa [researcher_search_dedup] using
      List.length_take_le max_results (dedupLoop [] all_results)

/-- C9 witness: on a concrete accumulated list with a duplicate url, an empty
url and a truncation to two entries, the dedup keeps the first occurrences in
order. -/
theorem search_dedup_spec_witness :
    researcher_search_dedup
      [⟨"A", "http://a.com", ""⟩, ⟨"E", "", ""⟩, ⟨"B", "http://b.com", ""⟩,
       ⟨"A2", "http://a.com", ""⟩, ⟨"C", "http://c.com", ""⟩] 2 =
      [⟨"A", "http://a.com", ""⟩, ⟨"B", "http://b.com", ""⟩] ∧
    (researcher_search_dedup
      [⟨"A", "http://a.com", ""⟩, ⟨"E", "", ""⟩, ⟨"B", "http://b.com", ""⟩,
       ⟨"A2", "http://a.com", ""⟩, ⟨"C", "http://c.com", ""⟩] 2).length ≤ 2 :=
  ⟨by decide,
   (search_dedup_spec
      [⟨"A", "http://a.com", ""⟩, ⟨"E", "", ""⟩, ⟨"B", "http://b.com", ""⟩,
       ⟨"A2", "http://a.com", ""⟩, ⟨"C", "http://c.com", ""⟩] 2).2.2.2.2⟩

/-- C10: when the review LLM call raises or its response fails to parse as a
JSON object, `ReviewerAgent.review` falls back to score 80, approved, no
issues; `run` therefore sets `review_approved` to true, leaves `error`
untouched, and `_should_revise` routes forward to "assemble" — a failed
quality review never triggers the revision loop. -/
theorem review_failure_defaults_to_approval (maxR : Nat) (chat : Chat)
    (parse : String → Option ReviewJson)
    (render : String → Option Outline → String) (s : SharedState)
    (h : ∀ r, chat (render (reviewer_document s.sections) s.outline) =
      Except.ok r → parse r = none) :
    (reviewer_run chat parse render s).review_score = 80 ∧
    (reviewer_run chat parse render s).review_approved = true ∧
    (reviewer_run chat parse render s).review_issues = [] ∧
    (reviewer_run chat parse render s).error = s.error ∧
    should_revise maxR (reviewer_run chat parse render s) = "assemble" := by
  simp only [reviewer_run, reviewer_review]
  cases hc : chat (render (reviewer_document s.sections) s.outline) with
  | error e => simp [hc, reviewFallback, should_revise]
  | ok r =>
    have hp := h r hc
    simp [hc, hp, reviewFallback, should_revise]

/-- C10 witness: a reviewer whose LLM call always raises approves the
document and routes to assemble on the initial state. -/
theorem review_failure_defaults_to_approval_witness :
    (reviewer_run (fun _ => Except.error "ConnectionError") (fun _ => none)
      (fun _ _ => "") (create_initial_state "t" "tutorial" "intermediate"
      "medium" none)).review_approved = true ∧
    should_revise 3 (reviewer_run (fun _ => Except.error "ConnectionError")
      (fun _ => none) (fun _ _ => "") (create_initial_state "t" "tutorial"
      "intermediate" "medium" none)) = "assemble" := by
  have h := review_failure_defaults_to_approval 3
    (fun _ => Except.error "ConnectionError") (fun _ => none) (fun _ _ => "")
    (create_initial_state "t" "tutorial" "intermediate" "medium" none)
    (fun r hr => by exact absurd hr (by simp))
  exact ⟨h.2.1, h.2.2.2.2⟩

/-- A state in which the Write step has recorded an error (missing outline)
and written no sections. -/
def errState : SharedState :=
  { create_initial_state "t" "tutorial" "intermediate" "medium" none with
    error := some "大纲为空，无法进行内容撰写" }

/-- An error state that still carries one written section (the Write step
records an error and keeps the sections written before the failure). -/
def errStateS : SharedState :=
  { errState with
    sections := [{ id := "s1", title := "T", content := "body [CODE: c1 - demo]",
                   image_ids := [], code_ids := [] }] }

/-- C4 counterexample: the claim says every step after Write detects a set
error flag first and returns the state unchanged; but `ReviewerAgent.run` has
no error-flag check — on a state with `error` set it still reviews and
overwrites the review fields (score 0 becomes 80 via the fallback), so the
state is not returned unchanged. -/
theorem error_propagation_counterexample :
    errTruthy errState.error = true ∧
    reviewer_run (fun _ => Except.error "ConnectionError") (fun _ => none)
      (fun _ _ => "") errState ≠ errState := by
  constructor
  · decide
  · intro h
    have := congrArg SharedState.review_score h
    simp [reviewer_run, reviewer_review, reviewFallback, errState,
      create_initial_state] at this

/-- C4 amended: only `WriterAgent.run` checks the error flag and returns the
state unchanged when it is set (non-empty). The later steps present in the
source do not check it: with `error` set, `ReviewerAgent.run` still reviews
and overwrites the review fields, and `CoderAgent.run` still generates code
and rewrites `sections`/`code_blocks`, so the graph reaches its terminal node
with the error set but not with all other fields as Write left them. -/
theorem error_propagation_amended :
    (∀ (chat : Chat)
      (render : SectionOutline → String → String → String → String)
      (s : SharedState), errTruthy s.error = true →
        writer_run chat render s = s) ∧
    reviewer_run (fun _ => Except.error "ConnectionError") (fun _ => none)
      (fun _ _ => "") errState ≠ errState ∧
    coder_run (fun _ => [{ id := "c1", description := "demo" }])
      (fun _ _ => Except.ok (⟨"print(1)", "1", "", "python"⟩ : GenCode))
      errStateS ≠ errStateS := by
  refine ⟨?_, ?_, ?_⟩
  · intro chat render s h
    simp [writer_run, h]
  · intro h
    have := congrArg SharedState.review_score h
    simp [reviewer_run, reviewer_review, reviewFallback, errState,
      create_initial_state] at this
  · intro h
    have := congrArg SharedState.code_blocks h
    simp [coder_run, coderSection, errStateS, errState,
      create_initial_state] at this

/-- C4 amended witness: on the concrete missing-outline error state, the
Write step itself passes the state through unchanged. -/
theorem error_propagation_amended_witness :
    writer_run (fun _ => Except.error "x") (fun _ _ _ _ => "") errState =
      errState :=
  error_propagation_amended.1 (fun _ => Except.error "x") (fun _ _ _ _ => "")
    errState (by decide)

/-- C7: for an existing task, `send_progress` sets `overall_progress` to the
sum of the weights of the completed stages plus weight(stage)·percent/100
over the fixed weight table, and records stage, percent and message. -/
theorem send_progress_overall (tm : TMState) (task_id stage : String)
    (progress : Nat) (message : String) (task : TaskProgress)
    (h : lookupA tm.tasks task_id = some task) :
    lookupA (send_progress tm task_id stage progress message).tasks task_id =
      some { task with
        current_stage := stage, stage_progress := progress, message := message,
        overall_progress :=
          ((stage_weights.filter (fun p => stageCompleted task.results p.1)).map
            (fun p => p.2)).sum +
          (lookupA stage_weights stage).getD 0 * progress / 100 } := by
  have hsum : completedWeight task.results =
      ((stage_weights.filter (fun p => stageCompleted task.results p.1)).map
        (fun p => p.2)).sum := by
    rw [List.sum_eq_foldl]
    rfl
  simp only [send_progress, h, send_event_tasks]
  rw [lookupA_updateA_self _ _ _ (by rw [h]; rfl), hsum]

/-- The demo TaskManager state of the spec scenario: one task, set running,
with the "analyze" stage recorded complete by `send_result`. -/
def tmDemo : TMState :=
  send_result (set_running (create_task { tasks := [], queues := [] } "t1")
    "t1") "t1" "analyze" "analysis" "d"

/-- The task record held by `tmDemo`. -/
def taskDemo : TaskProgress :=
  { task_id := "t1", status := "running", current_stage := "",
    stage_progress := 0, overall_progress := 0, message := "",
    results := [("analyze", { completed := true, data := "d" })],
    outputs := "", error := none }

/-- C7 witness: after `send_result("analyze", ...)` marks analyze (weight 10)
complete, `send_progress("outline", 50, ...)` yields overall progress
10 + 20·50/100 = 20. -/
theorem send_progress_overall_witness :
    ∃ task2, lookupA (send_progress tmDemo "t1" "outline" 50 "m").tasks "t1" =
      some task2 ∧ task2.overall_progress = 20 := by
  have h := send_progress_overall tmDemo "t1" "outline" 50 "m" taskDemo
    (by decide)
  exact ⟨_, h, by decide⟩

/-- C8: for an existing task with an existing queue, `send_error` with
`recoverable = true` leaves the status unchanged while recording the error
message, with `recoverable = false` it sets status to "failed"; in both cases
exactly one error event is appended to that task's queue. -/
theorem send_error_semantics (tm : TMState) (task_id stage message : String)
    (recoverable : Bool) (task : TaskProgress) (q : List EventData)
    (ht : lookupA tm.tasks task_id = some task)
    (hq : lookupA tm.queues task_id = some q) :
    lookupA (send_error tm task_id stage message recoverable).tasks task_id =
      some { task with
        status := if recoverable then task.status else "failed",
        error := some message } ∧
    lookupA (send_error tm task_id stage message recoverable).queues task_id =
      some (q ++ [EventData.error stage message recoverable]) := by
  simp only [send_error, ht]
  constructor
  · rw [send_event_tasks]
    exact lookupA_updateA_self _ _ _ (by rw [ht]; rfl)
  · exact send_event_queue _ _ _ _ (by simpa using hq)

/-- C8 witness: on the concrete running task, a recoverable error leaves
status "running" and appends one error event; a non-recoverable error sets
status "failed". -/
theorem send_error_semantics_witness :
    lookupA (send_error tmDemo "t1" "image" "x" true).tasks "t1" =
      some { taskDemo with status := "running", error := some "x" } ∧
    lookupA (send_error tmDemo "t1" "image" "x" false).tasks "t1" =
      some { taskDemo with status := "failed", error := some "x" } := by
  constructor
  · have h := (send_error_semantics tmDemo "t1" "image" "x" true taskDemo
      [EventData.result "analyze" "analysis" "d"] (by decide) (by decide)).1
    simpa using h
  · have h := (send_error_semantics tmDemo "t1" "image" "x" false taskDemo
      [EventData.result "analyze" "analysis" "d"] (by decide) (by decide)).1
    simpa using h

/-! ## Workflow invariant and termination -/

theorem should_deepen_lt (maxQ : Nat) (s : SharedState)
    (h : should_deepen maxQ s = "deepen") : s.questioning_count < maxQ := by
  by_cases hq : s.questioning_count < maxQ
  · exact hq
  · exfalso
    by_cases hA : s.all_sections_detailed <;>
      simp [should_deepen, hA, hq] at h

theorem should_revise_lt (maxR : Nat) (s : SharedState)
    (h : should_revise maxR s = "revision") : s.revision_count < maxR := by
  by_cases hr : s.revision_count < maxR
  · exact hr
  · exfalso
    by_cases hR : s.review_approved <;>
      simp [should_revise, hR, hr] at h

/-- The loop-cap invariant carried through a run: the counters respect the
caps, and a loop-body node can only be entered with its counter strictly
below the cap (the router refuses otherwise). -/
def Inv (maxQ maxR : Nat) (node : Node) (s : SharedState) : Prop :=
  s.questioning_count ≤ maxQ ∧ s.revision_count ≤ maxR ∧
  (node = Node.deepen_content → s.questioning_count < maxQ) ∧
  (node = Node.revision → s.revision_count < maxR)

/-- Ranking function on configurations: strictly decreases along every
workflow step, bounding the number of remaining node executions. -/
def rank (maxQ maxR : Nat) : Node → SharedState → Nat
  | Node.terminal, _ => 0
  | Node.assembler, _ => 1
  | Node.revision, s => 1 + 2 * (maxR - s.revision_count)
  | Node.reviewer, s => 2 + 2 * (maxR - s.revision_count)
  | Node.artist, s => 3 + 2 * (maxR - s.revision_count)
  | Node.coder, s => 4 + 2 * (maxR - s.revision_count)
  | Node.deepen_content, s =>
    4 + 2 * (maxR - s.revision_count) + 2 * (maxQ - s.questioning_count)
  | Node.questioner, s =>
    5 + 2 * (maxR - s.revision_count) + 2 * (maxQ - s.questioning_count)
  | Node.writer, s =>
    6 + 2 * (maxR - s.revision_count) + 2 * (maxQ - s.questioning_count)
  | Node.planner, s =>
    7 + 2 * (maxR - s.revision_count) + 2 * (maxQ - s.questioning_count)
  | Node.researcher, s =>
    8 + 2 * (maxR - s.revision_count) + 2 * (maxQ - s.questioning_count)

theorem runW_bounds (oracle : AgentFn) (enhance : EnhanceFn) (maxQ maxR : Nat)
    (hc : CounterPreserving oracle) :
    ∀ (fuel : Nat) (node : Node) (s t : SharedState) (n : Nat),
      Inv maxQ maxR node s →
      runW oracle enhance maxQ maxR fuel node s = some (t, n) →
      t.questioning_count ≤ maxQ ∧ t.revision_count ≤ maxR := by
  intro fuel
  induction fuel with
  | zero =>
    intro node s t n hInv hrun
    cases node <;> simp only [runW] at hrun <;>
      first
      | exact Option.noConfusion hrun
      | · have h1 : s = t := congrArg Prod.fst (Option.some.inj hrun)
          subst h1
          exact ⟨hInv.1, hInv.2.1⟩
  | succ fuel ih =>
    intro node s t n hInv hrun
    have hqrc : ∀ nd, (oracle nd s).questioning_count = s.questioning_count ∧
        (oracle nd s).revision_count = s.revision_count := fun nd => hc nd s
    cases node with
    | terminal =>
      simp only [runW] at hrun
      have h1 : s = t := congrArg Prod.fst (Option.some.inj hrun)
      subst h1
      exact ⟨hInv.1, hInv.2.1⟩
    | researcher =>
      simp only [runW, stepW] at hrun
      cases hrec : runW oracle enhance maxQ maxR fuel Node.planner
          (oracle Node.researcher s) with
      | none => rw [hrec] at hrun; exact Option.noConfusion hrun
      | some p =>
        obtain ⟨t2, k⟩ := p
        rw [hrec] at hrun
        have h1 : t2 = t := congrArg Prod.fst (Option.some.inj hrun)
        subst h1
        refine ih Node.planner (oracle Node.researcher s) t2 k ?_ hrec
        obtain ⟨h1, h2⟩ := hqrc Node.researcher
        exact ⟨h1 ▸ hInv.1, h2 ▸ hInv.2.1, fun h => Node.noConfusion h,
          fun h => Node.noConfusion h⟩
    | planner =>
      simp only [runW, stepW] at hrun
      cases hrec : runW oracle enhance maxQ maxR fuel Node.writer
          (oracle Node.planner s) with
      | none => rw [hrec] at hrun; exact Option.noConfusion hrun
      | some p =>
        obtain ⟨t2, k⟩ := p
        rw [hrec] at hrun
        have h1 : t2 = t := congrArg Prod.fst (Option.some.inj hrun)
        subst h1
        refine ih Node.writer (oracle Node.planner s) t2 k ?_ hrec
        obtain ⟨h1, h2⟩ := hqrc Node.planner
        exact ⟨h1 ▸ hInv.1, h2 ▸ hInv.2.1, fun h => Node.noConfusion h,
          fun h => Node.noConfusion h⟩
    | writer =>
      simp only [runW, stepW] at hrun
      cases hrec : runW oracle enhance maxQ maxR fuel Node.questioner
          (oracle Node.writer s) with
      | none => rw [hrec] at hrun; exact Option.noConfusion hrun
      | some p =>
        obtain ⟨t2, k⟩ := p
        rw [hrec] at hrun
        have h1 : t2 = t := congrArg Prod.fst (Option.some.inj hrun)
        subst h1
        refine ih Node.questioner (oracle Node.writer s) t2 k ?_ hrec
        obtain ⟨h1, h2⟩ := hqrc Node.writer
        exact ⟨h1 ▸ hInv.1, h2 ▸ hInv.2.1, fun h => Node.noConfusion h,
          fun h => Node.noConfusion h⟩
    | questioner =>
      simp only [runW, stepW] at hrun
      obtain ⟨h1, h2⟩ := hqrc Node.questioner
      by_cases hroute : should_deepen maxQ (oracle Node.questioner s) = "deepen"
      · rw [if_pos hroute] at hrun
        cases hrec : runW oracle enhance maxQ maxR fuel Node.deepen_content
            (oracle Node.questioner s) with
        | none => rw [hrec] at hrun; exact Option.noConfusion hrun
        | some p =>
          obtain ⟨t2, k⟩ := p
          rw [hrec] at hrun
          have ht : t2 = t := congrArg Prod.fst (Option.some.inj hrun)
          subst ht
          refine ih Node.deepen_content (oracle Node.questioner s) t2 k ?_ hrec
          exact ⟨h1 ▸ hInv.1, h2 ▸ hInv.2.1,
            fun _ => should_deepen_lt maxQ _ hroute, fun h => Node.noConfusion h⟩
      · rw [if_neg hroute] at hrun
        cases hrec : runW oracle enhance maxQ maxR fuel Node.coder
            (oracle Node.questioner s) with
        | none => rw [hrec] at hrun; exact Option.noConfusion hrun
        | some p =>
          obtain ⟨t2, k⟩ := p
          rw [hrec] at hrun
          have ht : t2 = t := congrArg Prod.fst (Option.some.inj hrun)
          subst ht
          refine ih Node.coder (oracle Node.questioner s) t2 k ?_ hrec
          exact ⟨h1 ▸ hInv.1, h2 ▸ hInv.2.1, fun h => Node.noConfusion h,
            fun h => Node.noConfusion h⟩
    | deepen_content =>
      simp only [runW, stepW] at hrun
      cases hd : deepen_content_node enhance s with
      | error e => simp only [hd] at hrun; exact Option.noConfusion hrun
      | ok s2 =>
        simp only [hd] at hrun
        have hcount := deepen_node_counters enhance s
        rw [hd] at hcount
        simp only [stateOfE] at hcount
        cases hrec : runW oracle enhance maxQ maxR fuel Node.questioner s2 with
        | none => rw [hrec] at hrun; exact Option.noConfusion hrun
        | some p =>
          obtain ⟨t2, k⟩ := p
          rw [hrec] at hrun
          have ht : t2 = t := congrArg Prod.fst (Option.some.inj hrun)
          subst ht
          refine ih Node.questioner s2 t2 k ?_ hrec
          have hlt : s.questioning_count < maxQ := hInv.2.2.1 rfl
          refine ⟨?_, ?_, fun h => Node.noConfusion h, fun h => Node.noConfusion h⟩
          · rw [hcount.1]; omega
          · rw [hcount.2]; exact hInv.2.1
    | coder =>
      simp only [runW, stepW] at hrun
      cases hrec : runW oracle enhance maxQ maxR fuel Node.artist
          (oracle Node.coder s) with
      | none => rw [hrec] at hrun; exact Option.noConfusion hrun
      | some p =>
        obtain ⟨t2, k⟩ := p
        rw [hrec] at hrun
        have h1 : t2 = t := congrArg Prod.fst (Option.some.inj hrun)
        subst h1
        refine ih Node.artist (oracle Node.coder s) t2 k ?_ hrec
        obtain ⟨h1, h2⟩ := hqrc Node.coder
        exact ⟨h1 ▸ hInv.1, h2 ▸ hInv.2.1, fun h => Node.noConfusion h,
          fun h => Node.noConfusion h⟩
    | artist =>
      simp only [runW, stepW] at hrun
      cases hrec : runW oracle enhance maxQ maxR fuel Node.reviewer
          (oracle Node.artist s) with
      | none => rw [hrec] at hrun; exact Option.noConfusion hrun
      | some p =>
        obtain ⟨t2, k⟩ := p
        rw [hrec] at hrun
        have h1 : t2 = t := congrArg Prod.fst (Option.some.inj hrun)
        subst h1
        refine ih Node.reviewer (oracle Node.artist s) t2 k ?_ hrec
        obtain ⟨h1, h2⟩ := hqrc Node.artist
        exact ⟨h1 ▸ hInv.1, h2 ▸ hInv.2.1, fun h => Node.noConfusion h,
          fun h => Node.noConfusion h⟩
    | reviewer =>
      simp only [runW, stepW] at hrun
      obtain ⟨h1, h2⟩ := hqrc Node.reviewer
      by_cases hroute : should_revise maxR (oracle Node.reviewer s) = "revision"
      · rw [if_pos hroute] at hrun
        cases hrec : runW oracle enhance maxQ maxR fuel Node.revision
            (oracle Node.reviewer s) with
        | none => rw [hrec] at hrun; exact Option.noConfusion hrun
        | some p =>
          obtain ⟨t2, k⟩ := p
          rw [hrec] at hrun
          have ht : t2 = t := congrArg Prod.fst (Option.some.inj hrun)
          subst ht
          refine ih Node.revision (oracle Node.reviewer s) t2 k ?_ hrec
          exact ⟨h1 ▸ hInv.1, h2 ▸ hInv.2.1, fun h => Node.noConfusion h,
            fun _ => should_revise_lt maxR _ hroute⟩
      · rw [if_neg hroute] at hrun
        cases hrec : runW oracle enhance maxQ maxR fuel Node.assembler
            (oracle Node.reviewer s) with
        | none => rw [hrec] at hrun; exact Option.noConfusion hrun
        | some p =>
          obtain ⟨t2, k⟩ := p
          rw [hrec] at hrun
          have ht : t2 = t := congrArg Prod.fst (Option.some.inj hrun)
          subst ht
          refine ih Node.assembler (oracle Node.reviewer s) t2 k ?_ hrec
          exact ⟨h1 ▸ hInv.1, h2 ▸ hInv.2.1, fun h => Node.noConfusion h,
            fun h => Node.noConfusion h⟩
    | revision =>
      simp only [runW, stepW] at hrun
      cases hd : revision_node enhance s with
      | error e => simp only [hd] at hrun; exact Option.noConfusion hrun
      | ok s2 =>
        simp only [hd] at hrun
        have hcount := revision_node_counters enhance s
        rw [hd] at hcount
        simp only [stateOfE] at hcount
        cases hrec : runW oracle enhance maxQ maxR fuel Node.reviewer s2 with
        | none => rw [hrec] at hrun; exact Option.noConfusion hrun
        | some p =>
          obtain ⟨t2, k⟩ := p
          rw [hrec] at hrun
          have ht : t2 = t := congrArg Prod.fst (Option.some.inj hrun)
          subst ht
          refine ih Node.reviewer s2 t2 k ?_ hrec
          have hlt : s.revision_count < maxR := hInv.2.2.2 rfl
          refine ⟨?_, ?_, fun h => Node.noConfusion h, fun h => Node.noConfusion h⟩
          · rw [hcount.1]; exact hInv.1
          · rw [hcount.2]; omega
    | assembler =>
      simp only [runW, stepW] at hrun
      have h1 : oracle Node.assembler s = t :=
        congrArg Prod.fst (Option.some.inj hrun)
      obtain ⟨hq, hr⟩ := hqrc Node.assembler
      subst h1
      exact ⟨hq ▸ hInv.1, hr ▸ hInv.2.1⟩

theorem runW_terminates (oracle : AgentFn) (enhance : EnhanceFn)
    (maxQ maxR : Nat) (hc : CounterPreserving oracle)
    (hT : TotalEnhance enhance) :
    ∀ (fuel : Nat) (node : Node) (s : SharedState),
      Inv maxQ maxR node s → rank maxQ maxR node s ≤ fuel →
      ∃ t n, runW oracle enhance maxQ maxR fuel node s = some (t, n) ∧
        n ≤ rank maxQ maxR node s := by
  intro fuel
  induction fuel with
  | zero =>
    intro node s hInv hrank
    cases node <;>
      first
        | (exfalso; simp only [rank] at hrank; omega)
        | exact ⟨s, 0, by simp only [runW], by simp [rank]⟩
  | succ fuel ih =>
    intro node s hInv hrank
    have hqrc : ∀ nd, (oracle nd s).questioning_count = s.questioning_count ∧
        (oracle nd s).revision_count = s.revision_count := fun nd => hc nd s
    cases node with
    | terminal =>
      exact ⟨s, 0, by simp only [runW], by simp only [rank]; omega⟩
    | researcher =>
      obtain ⟨hq, hr⟩ := hqrc Node.researcher
      have hInv2 : Inv maxQ maxR Node.planner (oracle Node.researcher s) :=
        ⟨hq ▸ hInv.1, hr ▸ hInv.2.1, fun h => Node.noConfusion h,
          fun h => Node.noConfusion h⟩
      have hrank2 : rank maxQ maxR Node.planner (oracle Node.researcher s) ≤ fuel := by
        simp only [rank, hq, hr] at hrank ⊢; omega
      obtain ⟨t, k, hrec, hk⟩ := ih Node.planner _ hInv2 hrank2
      refine ⟨t, k + 1, by simp only [runW, stepW, hrec], ?_⟩
      simp only [rank, hq, hr] at hk ⊢; omega
    | planner =>
      obtain ⟨hq, hr⟩ := hqrc Node.planner
      have hInv2 : Inv maxQ maxR Node.writer (oracle Node.planner s) :=
        ⟨hq ▸ hInv.1, hr ▸ hInv.2.1, fun h => Node.noConfusion h,
          fun h => Node.noConfusion h⟩
      have hrank2 : rank maxQ maxR Node.writer (oracle Node.planner s) ≤ fuel := by
        simp only [rank, hq, hr] at hrank ⊢; omega
      obtain ⟨t, k, hrec, hk⟩ := ih Node.writer _ hInv2 hrank2
      refine ⟨t, k + 1, by simp only [runW, stepW, hrec], ?_⟩
      simp only [rank, hq, hr] at hk ⊢; omega
    | writer =>
      obtain ⟨hq, hr⟩ := hqrc Node.writer
      have hInv2 : Inv maxQ maxR Node.questioner (oracle Node.writer s) :=
        ⟨hq ▸ hInv.1, hr ▸ hInv.2.1, fun h => Node.noConfusion h,
          fun h => Node.noConfusion h⟩
      have hrank2 : rank maxQ maxR Node.questioner (oracle Node.writer s) ≤ fuel := by
        simp only [rank, hq, hr] at hrank ⊢; omega
      obtain ⟨t, k, hrec, hk⟩ := ih Node.questioner _ hInv2 hrank2
      refine ⟨t, k + 1, by simp only [runW, stepW, hrec], ?_⟩
      simp only [rank, hq, hr] at hk ⊢; omega
    | questioner =>
      obtain ⟨hq, hr⟩ := hqrc Node.questioner
      by_cases hroute : should_deepen maxQ (oracle Node.questioner s) = "deepen"
      · have hlt : (oracle Node.questioner s).questioning_count < maxQ :=
          should_deepen_lt maxQ _ hroute
        have hInv2 : Inv maxQ maxR Node.deepen_content (oracle Node.questioner s) :=
          ⟨hq ▸ hInv.1, hr ▸ hInv.2.1, fun _ => hlt, fun h => Node.noConfusion h⟩
        have hrank2 : rank maxQ maxR Node.deepen_content
            (oracle Node.questioner s) ≤ fuel := by
          simp only [rank, hq, hr] at hrank ⊢; omega
        obtain ⟨t, k, hrec, hk⟩ := ih Node.deepen_content _ hInv2 hrank2
        refine ⟨t, k + 1, by simp only [runW, stepW, if_pos hroute, hrec], ?_⟩
        simp only [rank, hq, hr] at hk ⊢; omega
      · have hInv2 : Inv maxQ maxR Node.coder (oracle Node.questioner s) :=
          ⟨hq ▸ hInv.1, hr ▸ hInv.2.1, fun h => Node.noConfusion h,
            fun h => Node.noConfusion h⟩
        have hrank2 : rank maxQ maxR Node.coder (oracle Node.questioner s) ≤ fuel := by
          simp only [rank, hq, hr] at hrank ⊢; omega
        obtain ⟨t, k, hrec, hk⟩ := ih Node.coder _ hInv2 hrank2
        refine ⟨t, k + 1, by simp only [runW, stepW, if_neg hroute, hrec], ?_⟩
        simp only [rank, hq, hr] at hk ⊢; omega
    | deepen_content =>
      have hlt : s.questioning_count < maxQ := hInv.2.2.1 rfl
      obtain ⟨s2, hok, hq2, hr2⟩ := deepen_node_ok enhance hT s
      have hInv2 : Inv maxQ maxR Node.questioner s2 :=
        ⟨by omega, hr2 ▸ hInv.2.1, fun h => Node.noConfusion h,
          fun h => Node.noConfusion h⟩
      have hrank2 : rank maxQ maxR Node.questioner s2 ≤ fuel := by
        simp only [rank, hq2, hr2] at hrank ⊢; omega
      obtain ⟨t, k, hrec, hk⟩ := ih Node.questioner _ hInv2 hrank2
      refine ⟨t, k + 1, by simp only [runW, stepW, hok, hrec], ?_⟩
      simp only [rank, hq2, hr2] at hk ⊢; omega
    | coder =>
      obtain ⟨hq, hr⟩ := hqrc Node.coder
      have hInv2 : Inv maxQ maxR Node.artist (oracle Node.coder s) :=
        ⟨hq ▸ hInv.1, hr ▸ hInv.2.1, fun h => Node.noConfusion h,
          fun h => Node.noConfusion h⟩
      have hrank2 : rank maxQ maxR Node.artist (oracle Node.coder s) ≤ fuel := by
        simp only [rank, hq, hr] at hrank ⊢; omega
      obtain ⟨t, k, hrec, hk⟩ := ih Node.artist _ hInv2 hrank2
      refine ⟨t, k + 1, by simp only [runW, stepW, hrec], ?_⟩
      simp only [rank, hq, hr] at hk ⊢; omega
    | artist =>
      obtain ⟨hq, hr⟩ := hqrc Node.artist
      have hInv2 : Inv maxQ maxR Node.reviewer (oracle Node.artist s) :=
        ⟨hq ▸ hInv.1, hr ▸ hInv.2.1, fun h => Node.noConfusion h,
          fun h => Node.noConfusion h⟩
      have hrank2 : rank maxQ maxR Node.reviewer (oracle Node.artist s) ≤ fuel := by
        simp only [rank, hq, hr] at hrank ⊢; omega
      obtain ⟨t, k, hrec, hk⟩ := ih Node.reviewer _ hInv2 hrank2
      refine ⟨t, k + 1, by simp only [runW, stepW, hrec], ?_⟩
      simp only [rank, hq, hr] at hk ⊢; omega
    | reviewer =>
      obtain ⟨hq, hr⟩ := hqrc Node.reviewer
      by_cases hroute : should_revise maxR (oracle Node.reviewer s) = "revision"
      · have hlt : (oracle Node.reviewer s).revision_count < maxR :=
          should_revise_lt maxR _ hroute
        have hInv2 : Inv maxQ maxR Node.revision (oracle Node.reviewer s) :=
          ⟨hq ▸ hInv.1, hr ▸ hInv.2.1, fun h => Node.noConfusion h, fun _ => hlt⟩
        have hrank2 : rank maxQ maxR Node.revision (oracle Node.reviewer s) ≤ fuel := by
          simp only [rank, hq, hr] at hrank ⊢; omega
        obtain ⟨t, k, hrec, hk⟩ := ih Node.revision _ hInv2 hrank2
        refine ⟨t, k + 1, by simp only [runW, stepW, if_pos hroute, hrec], ?_⟩
        simp only [rank, hq, hr] at hk ⊢; omega
      · have hInv2 : Inv maxQ maxR Node.assembler (oracle Node.reviewer s) :=
          ⟨hq ▸ hInv.1, hr ▸ hInv.2.1, fun h => Node.noConfusion h,
            fun h => Node.noConfusion h⟩
        have hrank2 : rank maxQ maxR Node.assembler (oracle Node.reviewer s) ≤ fuel := by
          simp only [rank, hq, hr] at hrank ⊢; omega
        obtain ⟨t, k, hrec, hk⟩ := ih Node.assembler _ hInv2 hrank2
        refine ⟨t, k + 1, by simp only [runW, stepW, if_neg hroute, hrec], ?_⟩
        simp only [rank, hq, hr] at hk ⊢; omega
    | revision =>
      have hlt : s.revision_count < maxR := hInv.2.2.2 rfl
      obtain ⟨s2, hok, hq2, hr2⟩ := revision_node_ok enhance hT s
      have hInv2 : Inv maxQ maxR Node.reviewer s2 :=
        ⟨hq2 ▸ hInv.1, by omega, fun h => Node.noConfusion h,
          fun h => Node.noConfusion h⟩
      have hrank2 : rank maxQ maxR Node.reviewer s2 ≤ fuel := by
        simp only [rank, hq2, hr2] at hrank ⊢; omega
      obtain ⟨t, k, hrec, hk⟩ := ih Node.reviewer _ hInv2 hrank2
      refine ⟨t, k + 1, by simp only [runW, stepW, hok, hrec], ?_⟩
      simp only [rank, hq2, hr2] at hk ⊢; omega
    | assembler =>
      refine ⟨oracle Node.assembler s, 1, by simp only [runW, stepW], ?_⟩
      simp only [rank]
      omega

/-- C1: for every run (any counter-preserving content agents, any enhancement
collaborator, any fuel) started from the initial state, the state at graph
termination satisfies `questioning_count ≤ max_questioning_rounds` and
`revision_count ≤ max_revision_rounds`: the router refuses to enter a loop
body at the cap and each loop body increments its counter by exactly one. -/
theorem loop_caps_at_termination (maxQ maxR : Nat) (oracle : AgentFn)
    (enhance : EnhanceFn) (fuel : Nat) (topic aty aud len : String)
    (sm : Option String) (t : SharedState) (n : Nat)
    (hc : CounterPreserving oracle)
    (hrun : runW oracle enhance maxQ maxR fuel Node.researcher
      (create_initial_state topic aty aud len sm) = some (t, n)) :
    t.questioning_count ≤ maxQ ∧ t.revision_count ≤ maxR :=
  runW_bounds oracle enhance maxQ maxR hc fuel Node.researcher _ t n
    ⟨Nat.zero_le _, Nat.zero_le _, fun h => Node.noConfusion h,
      fun h => Node.noConfusion h⟩ hrun

/-- C1 witness: with identity content agents and caps 0 the run terminates in
8 node executions and the final state respects both caps. -/
theorem loop_caps_at_termination_witness :
    (create_initial_state "t" "tutorial" "intermediate" "medium"
      none).questioning_count ≤ 0 ∧
    (create_initial_state "t" "tutorial" "intermediate" "medium"
      none).revision_count ≤ 0 :=
  loop_caps_at_termination 0 0 (fun _ s => s) (fun c _ _ _ => Except.ok c) 8
    "t" "tutorial" "intermediate" "medium" none
    (create_initial_state "t" "tutorial" "intermediate" "medium" none) 8
    (fun _ _ => ⟨rfl, rfl⟩) (by rfl)

/-- The worst-case content agents of the termination claim: the Questioner
always reports "not detailed enough" and the Reviewer always reports "not
approved"; all other agents pass the state through. -/
def oracleCE : AgentFn := fun n s =>
  match n with
  | Node.questioner => { s with all_sections_detailed := false }
  | Node.reviewer => { s with review_approved := false }
  | _ => s

/-- An enhancement collaborator that returns the content unchanged. -/
def enhanceCE : EnhanceFn := fun c _ _ _ => Except.ok c

/-- C3 counterexample: with the default caps (2 questioning rounds, 3
revision rounds) and worst-case Questioner/Reviewer verdicts, the run does
not terminate within maxQ + maxR + 8 = 13 node executions as the claim
states: it needs 18, because each loop round re-executes the branch-point
node (questioner / reviewer) as well as the loop body. -/
theorem termination_bound_counterexample :
    runW oracleCE enhanceCE 2 3 13 Node.researcher
      (create_initial_state "t" "tutorial" "intermediate" "medium" none) =
        none ∧
    (runW oracleCE enhanceCE 2 3 100 Node.researcher
      (create_initial_state "t" "tutorial" "intermediate" "medium" none)).map
        Prod.snd = some 18 ∧
    ¬(18 ≤ 2 + 3 + 8) :=
  ⟨by rfl, by rfl, by omega⟩

/-- C3 amended: with any counter-preserving content agents — in particular a
Questioner that always reports "not detailed enough" and a Reviewer that
always reports "not approved" — and a non-raising enhancement collaborator,
the run reaches the terminal node within 2·maxQ + 2·maxR + 8 node executions
(each of the two cycles deepen_content→questioner and revision→reviewer,
the only cycles of the graph, consumes one counter increment and re-executes
its branch-point node once per round). -/
theorem termination_within_bound (maxQ maxR : Nat) (oracle : AgentFn)
    (enhance : EnhanceFn) (topic aty aud len : String) (sm : Option String)
    (hc : CounterPreserving oracle) (hT : TotalEnhance enhance) :
    ∃ t n, runW oracle enhance maxQ maxR (2 * maxQ + 2 * maxR + 8)
      Node.researcher (create_initial_state topic aty aud len sm) =
        some (t, n) ∧ n ≤ 2 * maxQ + 2 * maxR + 8 := by
  obtain ⟨t, n, hrun, hn⟩ := runW_terminates oracle enhance maxQ maxR hc hT
    (2 * maxQ + 2 * maxR + 8) Node.researcher
    (create_initial_state topic aty aud len sm)
    ⟨Nat.zero_le _, Nat.zero_le _, fun h => Node.noConfusion h,
      fun h => Node.noConfusion h⟩
    (by simp [rank, create_initial_state]; omega)
  refine ⟨t, n, hrun, hn.trans ?_⟩
  simp [rank, create_initial_state]
  omega

/-- C3 amended witness: the worst-case run with caps 2 and 3 terminates
within 2·2 + 2·3 + 8 = 18 node executions. -/
theorem termination_within_bound_witness :
    ∃ t n, runW oracleCE enhanceCE 2 3 (2 * 2 + 2 * 3 + 8) Node.researcher
      (create_initial_state "t" "tutorial" "intermediate" "medium" none) =
        some (t, n) ∧ n ≤ 2 * 2 + 2 * 3 + 8 :=
  termination_within_bound 2 3 oracleCE enhanceCE "t" "tutorial"
    "intermediate" "medium" none
    (by intro n s; cases n <;> exact ⟨rfl, rfl⟩)
    (fun c vp ti p => ⟨c, rfl⟩)

end VibeBlog
